import Mathlib

/-!
Verification of the realtime session and fan-out subsystem of the Dreams
chat backend (`backend/ws.py` and the websocket endpoint `ws_chat` of
`backend/main.py`) against its natural-language specification.

The registry (`WSManager`) is embedded as an association list from
conversation id to the list of connection records, mirroring the Python
`self.rooms` dict whose values are lists of `{"ws", "uid", "device"}`
dicts.  Connection handles are abstracted as natural numbers compared by
equality, matching the identity comparison `c["ws"] != ws` in the source.
-/

namespace Dreams

/-- A live websocket connection handle, abstracted as an opaque id
compared by equality (the Python code compares the `ws` objects with
`!=`). -/
abbrev Conn := Nat

/-- The fixed vocabulary of mobile indicators in `detect_device`
(`ws.py`): `["iphone", "android", "ipad", "mobile"]`. -/
def mobileKeywords : List String := ["iphone", "android", "ipad", "mobile"]

/-- Whether the first character list is an initial segment of the
second. -/
def startsWithChars : List Char → List Char → Bool
  | [], _ => true
  | _ :: _, [] => false
  | a :: as, b :: bs => a == b && startsWithChars as bs

/-- Whether the first character list occurs contiguously inside the
second. -/
def hasInfixChars (k : List Char) : List Char → Bool
  | [] => startsWithChars k []
  | b :: bs => startsWithChars k (b :: bs) || hasInfixChars k bs

/-- Substring test `k in s` of Python, on the underlying character
lists. -/
def containsSub (s k : String) : Bool := hasInfixChars k.data s.data

/-- Python `str.lower()`, characterwise. -/
def pyLower (s : String) : String := ⟨s.data.map Char.toLower⟩

/-- Embedding of `detect_device` (`ws.py`): lowercase the user-agent and
classify as "mobile" iff it contains one of the mobile keywords,
otherwise "desktop". -/
def detect_device (ua : String) : String :=
  if mobileKeywords.any (fun k => containsSub (pyLower ua) k) then "mobile" else "desktop"

/-- A connection record, one entry of a room's member list:
`{"ws": ws, "uid": uid, "device": device}` in `WSManager.join`. -/
structure ConnRecord where
  ws : Conn
  uid : Nat
  device : String
deriving DecidableEq

/-- The rooms map of the registry: conversation id to member list,
as an association list standing for the Python dict. -/
abbrev Rooms := List (Nat × List ConnRecord)

/-- Embedding of the `WSManager` class state (`ws.py`): the single field
`self.rooms`. -/
structure WSManager where
  rooms : Rooms
deriving DecidableEq

/-- Dict lookup `self.rooms.get(conversation_id)`. -/
def lookupRoom (rooms : Rooms) (cid : Nat) : Option (List ConnRecord) :=
  (rooms.find? (fun p => p.1 == cid)).map (fun p => p.2)

/-- Member list of a conversation's room, empty when the key is absent. -/
def members (m : WSManager) (cid : Nat) : List ConnRecord :=
  (lookupRoom m.rooms cid).getD []

/-- Number of connection records in a conversation's room. -/
def memberCount (m : WSManager) (cid : Nat) : Nat := (members m cid).length

/-- Dict update `self.rooms[conversation_id] = r` for a key already
present. -/
def setRoom (rooms : Rooms) (cid : Nat) (r : List ConnRecord) : Rooms :=
  rooms.map (fun p => if p.1 == cid then (cid, r) else p)

/-- Dict deletion `del self.rooms[conversation_id]`. -/
def delRoom (rooms : Rooms) (cid : Nat) : Rooms :=
  rooms.filter (fun p => p.1 != cid)

/-- Embedding of `WSManager.join` (`ws.py`):
`self.rooms.setdefault(conversation_id, []).append({...})` — append a
fresh record to the room, creating the room if absent. -/
def WSManager.join (m : WSManager) (cid : Nat) (ws : Conn) (uid : Nat) (ua : String) :
    WSManager :=
  let record : ConnRecord := ⟨ws, uid, detect_device ua⟩
  match lookupRoom m.rooms cid with
  | some r => ⟨setRoom m.rooms cid (r ++ [record])⟩
  | none => ⟨m.rooms ++ [(cid, [record])]⟩

/-- Embedding of `WSManager.leave` (`ws.py`): no-op when the
conversation has no room; otherwise keep only the records whose `ws`
differs from the leaving connection, and delete the room if it became
empty. -/
def WSManager.leave (m : WSManager) (cid : Nat) (ws : Conn) : WSManager :=
  match lookupRoom m.rooms cid with
  | none => m
  | some r =>
    let kept := r.filter (fun c => c.ws != ws)
    if kept.isEmpty then ⟨delRoom m.rooms cid⟩ else ⟨setRoom m.rooms cid kept⟩

/-- The connections collected in the `dead` list of
`WSManager.broadcast`: members of the room whose `send_text` raises,
in room order.  Which sends fail is external input, passed as the
`failing` list. -/
def deadList (m : WSManager) (cid : Nat) (failing : List Conn) : List Conn :=
  ((members m cid).filter (fun c => failing.contains c.ws)).map (fun c => c.ws)

/-- Result of one `WSManager.broadcast` call: the registry state after
the dead-connection cleanup, how many times the payload was serialized
(`json.dumps`), the connections a send was attempted to, in order, and
the dead list. -/
structure BroadcastResult where
  state : WSManager
  serializations : Nat
  sends : List Conn
  dead : List Conn
deriving DecidableEq

/-- Embedding of `WSManager.broadcast` (`ws.py`): return immediately if
the conversation has no room; otherwise serialize the payload once,
attempt a send to every record of the room (collecting failing
connections in `dead`), then `leave` each dead connection. -/
def WSManager.broadcast (m : WSManager) (cid : Nat) (failing : List Conn) :
    BroadcastResult :=
  match lookupRoom m.rooms cid with
  | none => ⟨m, 0, [], []⟩
  | some r =>
    let dead := (r.filter (fun c => failing.contains c.ws)).map (fun c => c.ws)
    ⟨dead.foldl (fun s w => s.leave cid w) m, 1, r.map (fun c => c.ws), dead⟩

/-- The registry starts with an empty rooms dict (`self.rooms = {}`). -/
def WSManager.empty : WSManager := ⟨[]⟩

/-- One registry call, as issued by session handlers: `join`, `leave`,
or `broadcast` (the latter carrying which member sends fail). -/
inductive Op where
  | join (cid : Nat) (ws : Conn) (uid : Nat) (ua : String)
  | leave (cid : Nat) (ws : Conn)
  | broadcast (cid : Nat) (failing : List Conn)
deriving DecidableEq

/-- Apply one registry call to a state. -/
def applyOp (m : WSManager) (o : Op) : WSManager :=
  match o with
  | .join cid ws uid ua => m.join cid ws uid ua
  | .leave cid ws => m.leave cid ws
  | .broadcast cid failing => (m.broadcast cid failing).state

/-- Run a sequence of registry calls from a given state. -/
def runOpsFrom (m : WSManager) (ops : List Op) : WSManager := ops.foldl applyOp m

/-- Run a sequence of registry calls from the initial empty registry. -/
def runOps (ops : List Op) : WSManager := runOpsFrom .empty ops

example : memberCount (runOps [.join 1 5 7 "", .join 1 6 7 "iPhone"]) 1 = 2 := by decide

example : runOps [.join 1 5 7 "", .leave 1 5] = .empty := by decide

example : detect_device "Mozilla iPhone OS" = "mobile" := by decide

example : detect_device "Mozilla X11" = "desktop" := by decide

example :
    (runOps [.join 1 5 7 "", .join 1 6 8 ""]).broadcast 1 [5] =
      ⟨⟨[(1, [⟨6, 8, "desktop"⟩])]⟩, 1, [5, 6], [5]⟩ := by decide

/-! Lookup lemmas for the rooms association list. -/

theorem lookup_set_self (rooms : Rooms) (cid : Nat) (v : List ConnRecord) :
    lookupRoom (setRoom rooms cid v) cid = (lookupRoom rooms cid).map (fun _ => v) := by
  induction rooms with
  | nil => simp [lookupRoom, setRoom]
  | cons p ps ih =>
    by_cases hp : p.1 = cid
    · simp [lookupRoom, setRoom, List.find?_cons_of_pos, hp]
    · have hb : (p.1 == cid) = false := by simp [hp]
      simp only [lookupRoom, setRoom, List.map_cons, hb, if_false] at ih ⊢
      rw [List.find?_cons_of_neg _ (by simp [hp]), List.find?_cons_of_neg _ (by simp [hp])]
      exact ih

theorem lookup_set_ne (rooms : Rooms) {cid cid2 : Nat} (v : List ConnRecord)
    (h : cid2 ≠ cid) :
    lookupRoom (setRoom rooms cid v) cid2 = lookupRoom rooms cid2 := by
  induction rooms with
  | nil => simp [lookupRoom, setRoom]
  | cons p ps ih =>
    by_cases hp : p.1 = cid2
    · have hcid : ¬ p.1 = cid := by rw [hp]; exact h
      simp only [lookupRoom, setRoom, List.map_cons] at ih ⊢
      rw [if_neg (by simp [hcid])]
      rw [List.find?_cons_of_pos _ (by simp [hp]), List.find?_cons_of_pos _ (by simp [hp])]
    · simp only [lookupRoom, setRoom, List.map_cons] at ih ⊢
      by_cases hc : p.1 = cid
      · rw [if_pos (by simp [hc])]
        rw [List.find?_cons_of_neg _ (by simp; exact fun hh => h hh.symm),
          List.find?_cons_of_neg _ (by simp [hp])]
        exact ih
      · rw [if_neg (by simp [hc])]
        rw [List.find?_cons_of_neg _ (by simp [hp]), List.find?_cons_of_neg _ (by simp [hp])]
        exact ih

theorem lookup_del_self (rooms : Rooms) (cid : Nat) :
    lookupRoom (delRoom rooms cid) cid = none := by
  induction rooms with
  | nil => simp [lookupRoom, delRoom]
  | cons p ps ih =>
    by_cases hp : p.1 = cid
    · simpa [delRoom, List.filter_cons, hp] using ih
    · simp only [delRoom, List.filter_cons] at ih ⊢
      rw [if_pos (by simp [hp])]
      simp only [lookupRoom] at ih ⊢
      rw [List.find?_cons_of_neg _ (by simp [hp])]
      exact ih

theorem lookup_del_ne (rooms : Rooms) {cid cid2 : Nat} (h : cid2 ≠ cid) :
    lookupRoom (delRoom rooms cid) cid2 = lookupRoom rooms cid2 := by
  induction rooms with
  | nil => simp [lookupRoom, delRoom]
  | cons p ps ih =>
    by_cases hp : p.1 = cid
    · have hp2 : ¬ p.1 = cid2 := by rw [hp]; exact fun hh => h hh.symm
      simp only [delRoom, List.filter_cons] at ih ⊢
      rw [if_neg (by simp [hp])]
      simp only [lookupRoom] at ih ⊢
      rw [List.find?_cons_of_neg _ (by simp [hp2])]
      exact ih
    · simp only [delRoom, List.filter_cons] at ih ⊢
      rw [if_pos (by simp [hp])]
      by_cases hp2 : p.1 = cid2
      · simp only [lookupRoom]
        rw [List.find?_cons_of_pos _ (by simp [hp2]), List.find?_cons_of_pos _ (by simp [hp2])]
      · simp only [lookupRoom] at ih ⊢
        rw [List.find?_cons_of_neg _ (by simp [hp2]), List.find?_cons_of_neg _ (by simp [hp2])]
        exact ih

theorem lookup_append_single_self (rooms : Rooms) {cid : Nat} (v : List ConnRecord)
    (h : lookupRoom rooms cid = none) :
    lookupRoom (rooms ++ [(cid, v)]) cid = some v := by
  induction rooms with
  | nil => simp [lookupRoom]
  | cons p ps ih =>
    by_cases hp : p.1 = cid
    · simp [lookupRoom, List.find?_cons_of_pos, hp] at h
    · simp only [lookupRoom] at h ih ⊢
      rw [List.find?_cons_of_neg _ (by simp [hp])] at h
      rw [List.cons_append, List.find?_cons_of_neg _ (by simp [hp])]
      exact ih h

theorem lookup_append_single_ne (rooms : Rooms) {cid cid2 : Nat} (v : List ConnRecord)
    (h : cid2 ≠ cid) :
    lookupRoom (rooms ++ [(cid, v)]) cid2 = lookupRoom rooms cid2 := by
  induction rooms with
  | nil =>
    simp only [List.nil_append, lookupRoom]
    rw [List.find?_cons_of_neg _ (by simp; exact fun hh => h hh.symm)]
  | cons p ps ih =>
    by_cases hp : p.1 = cid2
    · simp only [lookupRoom] at ih ⊢
      rw [List.cons_append, List.find?_cons_of_pos _ (by simp [hp]),
        List.find?_cons_of_pos _ (by simp [hp])]
    · simp only [lookupRoom] at ih ⊢
      rw [List.cons_append, List.find?_cons_of_neg _ (by simp [hp]),
        List.find?_cons_of_neg _ (by simp [hp])]
      exact ih

theorem lookupRoom_mem {rooms : Rooms} {cid : Nat} {r : List ConnRecord}
    (h : lookupRoom rooms cid = some r) : (cid, r) ∈ rooms := by
  unfold lookupRoom at h
  cases hf : rooms.find? (fun p => p.1 == cid) with
  | none => rw [hf] at h; simp at h
  | some q =>
    rw [hf] at h
    simp only [Option.map_some'] at h
    have hq := List.find?_some hf
    have hmem : q ∈ rooms := List.mem_of_find?_eq_some hf
    have h1 : q.1 = cid := by simpa using hq
    have hbr : q.2 = r := Option.some.inj h
    have : q = (cid, r) := by
      cases q with
      | mk a b =>
        simp only at h1 hbr
        rw [h1, hbr]
    rwa [this] at hmem

theorem mem_setRoom {rooms : Rooms} {cid : Nat} {v : List ConnRecord}
    {p : Nat × List ConnRecord} (h : p ∈ setRoom rooms cid v) :
    p = (cid, v) ∨ (p ∈ rooms ∧ p.1 ≠ cid) := by
  unfold setRoom at h
  obtain ⟨q, hq, hpq⟩ := List.mem_map.mp h
  by_cases hc : q.1 = cid
  · left; rw [← hpq, if_pos (by simp [hc])]
  · right
    rw [← hpq, if_neg (by simp [hc])]
    exact ⟨hq, hc⟩

/-! Characterization of join, leave and broadcast at the level of the
member lists. -/

theorem members_join_self (m : WSManager) (cid : Nat) (ws : Conn) (uid : Nat) (ua : String) :
    members (m.join cid ws uid ua) cid = members m cid ++ [⟨ws, uid, detect_device ua⟩] := by
  unfold WSManager.join
  cases hl : lookupRoom m.rooms cid with
  | none => simp [members, lookup_append_single_self _ _ hl, hl]
  | some r => simp [members, lookup_set_self, hl]

theorem members_join_ne (m : WSManager) {cid cid2 : Nat} (ws : Conn) (uid : Nat)
    (ua : String) (h : cid2 ≠ cid) :
    members (m.join cid ws uid ua) cid2 = members m cid2 := by
  unfold WSManager.join
  cases hl : lookupRoom m.rooms cid with
  | none => simp [members, lookup_append_single_ne _ _ h]
  | some r => simp [members, lookup_set_ne _ _ h]

theorem members_leave_self (m : WSManager) (cid : Nat) (ws : Conn) :
    members (m.leave cid ws) cid = (members m cid).filter (fun c => c.ws != ws) := by
  unfold WSManager.leave
  cases hl : lookupRoom m.rooms cid with
  | none => simp [members, hl]
  | some r =>
    by_cases he : (r.filter (fun c => c.ws != ws)).isEmpty
    · simp only [he, if_true]
      have hnil : (members m cid).filter (fun c => c.ws != ws) = [] := by
        simp only [members, hl, Option.getD_some]
        exact List.isEmpty_iff.mp he
      rw [hnil]
      simp only [members, lookup_del_self, Option.getD_none]
    · simp [he, members, lookup_set_self, hl]

theorem members_leave_ne (m : WSManager) {cid cid2 : Nat} (ws : Conn) (h : cid2 ≠ cid) :
    members (m.leave cid ws) cid2 = members m cid2 := by
  unfold WSManager.leave
  cases hl : lookupRoom m.rooms cid with
  | none => rfl
  | some r =>
    by_cases he : (r.filter (fun c => c.ws != ws)).isEmpty
    · simp [he, members, lookup_del_ne _ h]
    · simp [he, members, lookup_set_ne _ _ h]

theorem broadcast_state_eq (m : WSManager) (cid : Nat) (failing : List Conn) :
    (m.broadcast cid failing).state =
      (deadList m cid failing).foldl (fun s w => s.leave cid w) m := by
  unfold WSManager.broadcast deadList
  cases hl : lookupRoom m.rooms cid with
  | none => simp [members, hl]
  | some r => simp [members, hl]

theorem broadcast_sends_eq (m : WSManager) (cid : Nat) (failing : List Conn)
    {r : List ConnRecord} (h : lookupRoom m.rooms cid = some r) :
    (m.broadcast cid failing).sends = r.map (fun c => c.ws) := by
  unfold WSManager.broadcast
  rw [h]

theorem broadcast_sends_none (m : WSManager) (cid : Nat) (failing : List Conn)
    (h : lookupRoom m.rooms cid = none) : (m.broadcast cid failing).sends = [] := by
  unfold WSManager.broadcast
  rw [h]

theorem members_leave_sublist (m : WSManager) (cid cid2 : Nat) (ws : Conn) :
    (members (m.leave cid ws) cid2).Sublist (members m cid2) := by
  by_cases h : cid2 = cid
  · subst h
    rw [members_leave_self]
    exact List.filter_sublist _
  · rw [members_leave_ne m ws h]

theorem members_foldl_leave_sublist (L : List Conn) (m : WSManager) (cid cid2 : Nat) :
    (members (L.foldl (fun s w => s.leave cid w) m) cid2).Sublist (members m cid2) := by
  induction L generalizing m with
  | nil => simp
  | cons w0 rest ih =>
    simp only [List.foldl_cons]
    exact (ih _).trans (members_leave_sublist m cid cid2 w0)

theorem members_leave_ws_ne (m : WSManager) (cid : Nat) (ws : Conn) :
    ∀ c ∈ members (m.leave cid ws) cid, c.ws ≠ ws := by
  intro c hc
  rw [members_leave_self] at hc
  simpa using List.of_mem_filter hc

theorem members_foldl_leave_not_mem (L : List Conn) (m : WSManager) (cid : Nat) :
    ∀ w ∈ L, ∀ c ∈ members (L.foldl (fun s w => s.leave cid w) m) cid, c.ws ≠ w := by
  induction L generalizing m with
  | nil => intro w hw; cases hw
  | cons w0 rest ih =>
    intro w hw c hc
    simp only [List.foldl_cons] at hc
    rcases List.mem_cons.mp hw with h | h
    · subst h
      exact members_leave_ws_ne m cid w c
        ((members_foldl_leave_sublist rest (m.leave cid w) cid cid).subset hc)
    · exact ih (m.leave cid w0) w h c hc

/-! C9: every stored room is non-empty. -/

/-- Invariant: every conversation key present in the rooms map carries a
non-empty member list. -/
def noEmptyRooms (m : WSManager) : Prop := ∀ p ∈ m.rooms, p.2 ≠ []

theorem noEmptyRooms_join (m : WSManager) (h : noEmptyRooms m) (cid : Nat) (ws : Conn)
    (uid : Nat) (ua : String) : noEmptyRooms (m.join cid ws uid ua) := by
  unfold WSManager.join
  cases hl : lookupRoom m.rooms cid with
  | some r =>
    intro p hp
    rcases mem_setRoom hp with h1 | ⟨h1, _⟩
    · rw [h1]; simp
    · exact h p h1
  | none =>
    intro p hp
    rcases List.mem_append.mp hp with h1 | h1
    · exact h p h1
    · simp only [List.mem_singleton] at h1
      rw [h1]
      simp

theorem noEmptyRooms_leave (m : WSManager) (h : noEmptyRooms m) (cid : Nat) (ws : Conn) :
    noEmptyRooms (m.leave cid ws) := by
  unfold WSManager.leave
  cases hl : lookupRoom m.rooms cid with
  | none => exact h
  | some r =>
    by_cases he : (r.filter (fun c => c.ws != ws)).isEmpty
    · simp only [he, if_true]
      intro p hp
      exact h p (List.mem_of_mem_filter hp)
    · simp only [he, if_false, Bool.false_eq_true]
      intro p hp
      rcases mem_setRoom hp with h1 | ⟨h1, _⟩
      · rw [h1]
        simpa [List.isEmpty_iff] using he
      · exact h p h1

theorem noEmptyRooms_foldl_leave (L : List Conn) (m : WSManager) (h : noEmptyRooms m)
    (cid : Nat) : noEmptyRooms (L.foldl (fun s w => s.leave cid w) m) := by
  induction L generalizing m with
  | nil => exact h
  | cons w0 rest ih =>
    simp only [List.foldl_cons]
    exact ih _ (noEmptyRooms_leave m h cid w0)

theorem noEmptyRooms_applyOp (m : WSManager) (h : noEmptyRooms m) (o : Op) :
    noEmptyRooms (applyOp m o) := by
  cases o with
  | join cid ws uid ua => exact noEmptyRooms_join m h cid ws uid ua
  | leave cid ws => exact noEmptyRooms_leave m h cid ws
  | broadcast cid failing =>
    simp only [applyOp, broadcast_state_eq]
    exact noEmptyRooms_foldl_leave _ m h cid

theorem noEmptyRooms_runOpsFrom (ops : List Op) (m : WSManager) (h : noEmptyRooms m) :
    noEmptyRooms (runOpsFrom m ops) := by
  induction ops generalizing m with
  | nil => exact h
  | cons o rest ih => exact ih (applyOp m o) (noEmptyRooms_applyOp m h o)

/-- C9: in every registry state reachable by a sequence of
join/leave/broadcast calls, every conversation key present in the rooms
map has a non-empty member list (rooms are created with their first
member and deleted when their last member leaves). -/
theorem C9_no_empty_room_reachable (ops : List Op) :
    ∀ p ∈ (runOps ops).rooms, p.2 ≠ [] :=
  noEmptyRooms_runOpsFrom ops .empty (fun _ hp => absurd hp (List.not_mem_nil _))

/-- Witness for C9 at a concrete trace and room. -/
theorem C9_no_empty_room_reachable_witness :
    (1, [(⟨5, 7, "desktop"⟩ : ConnRecord)]) ∈ (runOps [.join 1 5 7 ""]).rooms ∧
      ((1, [(⟨5, 7, "desktop"⟩ : ConnRecord)])).2 ≠ [] :=
  ⟨by decide, C9_no_empty_room_reachable [.join 1 5 7 ""] _ (by decide)⟩

/-- C10: one leave call removes every record of that connection from the
conversation's room, even if the connection had joined more than once. -/
theorem C10_leave_removes_all_records (m : WSManager) (cid : Nat) (ws : Conn) :
    ∀ c ∈ members (m.leave cid ws) cid, c.ws ≠ ws :=
  members_leave_ws_ne m cid ws

/-- Witness for C10: a connection that joined twice is fully removed by
one leave, while the other member stays. -/
theorem C10_leave_removes_all_records_witness :
    (⟨6, 8, "desktop"⟩ : ConnRecord) ∈
        members ((runOps [.join 1 5 7 "", .join 1 5 7 "", .join 1 6 8 ""]).leave 1 5) 1 ∧
      (⟨6, 8, "desktop"⟩ : ConnRecord).ws ≠ 5 :=
  ⟨by decide,
    C10_leave_removes_all_records (runOps [.join 1 5 7 "", .join 1 5 7 "", .join 1 6 8 ""])
      1 5 ⟨6, 8, "desktop"⟩ (by decide)⟩

/-! C5: at most one connection record per live connection. -/

/-- Invariant claimed by C5: in each stored room, no connection appears
in two records. -/
def atMostOnePerConn (m : WSManager) : Prop :=
  ∀ p ∈ m.rooms, (p.2.map (fun c => c.ws)).Nodup

/-- Trace on which C5 fails: the same connection joins the same
conversation twice (join appends unconditionally). -/
def doubleJoinOps : List Op := [.join 1 5 7 "", .join 1 5 7 ""]

/-- Executable trace guard: each join is for a connection not currently
in that room — the discipline `ws_chat` follows, joining each accepted
connection exactly once. -/
def freshJoinsB : WSManager → List Op → Bool
  | _, [] => true
  | m, o :: rest =>
    (match o with
     | .join cid ws _ _ => (members m cid).all (fun c => c.ws != ws)
     | _ => true) && freshJoinsB (applyOp m o) rest

theorem atMostOne_join (m : WSManager) (h : atMostOnePerConn m) {cid : Nat} {ws : Conn}
    (uid : Nat) (ua : String) (hfresh : ∀ c ∈ members m cid, c.ws ≠ ws) :
    atMostOnePerConn (m.join cid ws uid ua) := by
  unfold WSManager.join
  cases hl : lookupRoom m.rooms cid with
  | some r =>
    intro p hp
    rcases mem_setRoom hp with h1 | ⟨h1, _⟩
    · rw [h1]
      have hr : (r.map (fun c => c.ws)).Nodup := h (cid, r) (lookupRoom_mem hl)
      have hws : ws ∉ r.map (fun c => c.ws) := by
        intro hmem
        obtain ⟨c, hc, hcw⟩ := List.mem_map.mp hmem
        exact hfresh c (by simpa [members, hl] using hc) hcw
      simp only [List.map_append, List.map_cons, List.map_nil]
      refine hr.append (List.nodup_singleton ws) ?_
      intro x hx hx'
      rw [List.mem_singleton.mp hx'] at hx
      exact hws hx
    · exact h p h1
  | none =>
    intro p hp
    rcases List.mem_append.mp hp with h1 | h1
    · exact h p h1
    · simp only [List.mem_singleton] at h1
      rw [h1]
      simp

theorem atMostOne_leave (m : WSManager) (h : atMostOnePerConn m) (cid : Nat) (ws : Conn) :
    atMostOnePerConn (m.leave cid ws) := by
  unfold WSManager.leave
  cases hl : lookupRoom m.rooms cid with
  | none => exact h
  | some r =>
    by_cases he : (r.filter (fun c => c.ws != ws)).isEmpty
    · simp only [he, if_true]
      intro p hp
      exact h p (List.mem_of_mem_filter hp)
    · simp only [he, if_false, Bool.false_eq_true]
      intro p hp
      rcases mem_setRoom hp with h1 | ⟨h1, _⟩
      · rw [h1]
        exact List.Nodup.sublist ((List.filter_sublist r).map _)
          (h (cid, r) (lookupRoom_mem hl))
      · exact h p h1

theorem atMostOne_foldl_leave (L : List Conn) (m : WSManager) (h : atMostOnePerConn m)
    (cid : Nat) : atMostOnePerConn (L.foldl (fun s w => s.leave cid w) m) := by
  induction L generalizing m with
  | nil => exact h
  | cons w0 rest ih =>
    simp only [List.foldl_cons]
    exact ih _ (atMostOne_leave m h cid w0)

theorem atMostOne_applyOp (m : WSManager) (h : atMostOnePerConn m) (o : Op)
    (ho : (match o with
           | .join cid ws _ _ => (members m cid).all (fun c => c.ws != ws)
           | _ => true) = true) :
    atMostOnePerConn (applyOp m o) := by
  cases o with
  | join cid ws uid ua =>
    refine atMostOne_join m h uid ua ?_
    intro c hc
    simpa using List.all_eq_true.mp ho c hc
  | leave cid ws => exact atMostOne_leave m h cid ws
  | broadcast cid failing =>
    simp only [applyOp, broadcast_state_eq]
    exact atMostOne_foldl_leave _ m h cid

theorem atMostOne_runOpsFrom (ops : List Op) (m : WSManager) (h : atMostOnePerConn m)
    (hf : freshJoinsB m ops = true) : atMostOnePerConn (runOpsFrom m ops) := by
  induction ops generalizing m with
  | nil => exact h
  | cons o rest ih =>
    simp only [freshJoinsB, Bool.and_eq_true] at hf
    exact ih (applyOp m o) (atMostOne_applyOp m h o hf.1) hf.2

/-- Counterexample to C5 as stated: after two joins of the same
connection to the same conversation, its room holds two records for one
connection, so the invariant fails on a reachable state. -/
theorem C5_counterexample_double_join : ¬ atMostOnePerConn (runOps doubleJoinOps) := by
  unfold atMostOnePerConn
  decide

/-- C5 amended: in every state reachable by a sequence of
join/leave/broadcast calls in which join is only invoked for a
connection not already in that room (the session handler's usage —
one join per accepted connection), each room holds at most one record
per connection. -/
theorem C5_amended_at_most_one_record_per_conn (ops : List Op)
    (h : freshJoinsB .empty ops = true) : atMostOnePerConn (runOps ops) :=
  atMostOne_runOpsFrom ops .empty (fun _ hp => absurd hp (List.not_mem_nil _)) h

/-- Witness for the amended C5 at a concrete trace. -/
theorem C5_amended_witness :
    freshJoinsB .empty [.join 1 5 7 "", .join 1 6 8 "", .leave 1 5, .join 2 5 7 ""] = true ∧
      atMostOnePerConn (runOps [.join 1 5 7 "", .join 1 6 8 "", .leave 1 5, .join 2 5 7 ""]) :=
  ⟨by decide,
    C5_amended_at_most_one_record_per_conn
      [.join 1 5 7 "", .join 1 6 8 "", .leave 1 5, .join 2 5 7 ""] (by decide)⟩

/-! C6: broadcast serializes once, isolates per-member failures, and
evicts failed connections. -/

/-- C6: during a broadcast to an existing room, the payload is
serialized exactly once; a send is attempted to every member in room
order (a failure on one member never aborts the rest); and every
connection whose send fails is removed via leave, so it appears in no
subsequent broadcast to that conversation. -/
theorem C6_broadcast_failure_isolation (m : WSManager) (cid : Nat) (failing : List Conn)
    {r : List ConnRecord} (h : lookupRoom m.rooms cid = some r) :
    (m.broadcast cid failing).serializations = 1 ∧
    (m.broadcast cid failing).sends = r.map (fun c => c.ws) ∧
    (∀ w ∈ failing, ∀ c ∈ members (m.broadcast cid failing).state cid, c.ws ≠ w) ∧
    (∀ w ∈ failing, ∀ g : List Conn,
      w ∉ ((m.broadcast cid failing).state.broadcast cid g).sends) := by
  have hser : (m.broadcast cid failing).serializations = 1 := by
    unfold WSManager.broadcast
    rw [h]
  have hmain : ∀ w ∈ failing, ∀ c ∈ members (m.broadcast cid failing).state cid,
      c.ws ≠ w := by
    intro w hw c hc
    rw [broadcast_state_eq] at hc
    intro heq
    have hcr : c ∈ members m cid :=
      (members_foldl_leave_sublist _ m cid cid).subset hc
    have hdead : c.ws ∈ deadList m cid failing := by
      unfold deadList
      refine List.mem_map.mpr ⟨c, ?_, rfl⟩
      refine List.mem_filter.mpr ⟨hcr, ?_⟩
      rw [heq]
      exact List.elem_iff.mpr hw
    exact members_foldl_leave_not_mem _ m cid c.ws hdead c hc rfl
  refine ⟨hser, broadcast_sends_eq m cid failing h, hmain, ?_⟩
  intro w hw g hmem
  cases hl2 : lookupRoom (m.broadcast cid failing).state.rooms cid with
  | none =>
    rw [broadcast_sends_none _ cid g hl2] at hmem
    exact absurd hmem (List.not_mem_nil w)
  | some r2 =>
    rw [broadcast_sends_eq _ cid g hl2] at hmem
    obtain ⟨c, hc, hcw⟩ := List.mem_map.mp hmem
    have hcmem : c ∈ members (m.broadcast cid failing).state cid := by
      simp [members, hl2, hc]
    exact hmain w hw c hcmem hcw

/-- Concrete registry with a two-member room, for the C6 witness. -/
def c6m : WSManager := runOps [.join 1 5 7 "", .join 1 6 8 ""]

/-- The member list of room 1 of `c6m`. -/
def c6r : List ConnRecord := [⟨5, 7, "desktop"⟩, ⟨6, 8, "desktop"⟩]

/-- Witness for C6 at a concrete room with one failing member. -/
theorem C6_broadcast_failure_isolation_witness :
    lookupRoom c6m.rooms 1 = some c6r ∧
      ((c6m.broadcast 1 [5]).serializations = 1 ∧
      (c6m.broadcast 1 [5]).sends = c6r.map (fun c => c.ws) ∧
      (∀ w ∈ [5], ∀ c ∈ members (c6m.broadcast 1 [5]).state 1, c.ws ≠ w) ∧
      (∀ w ∈ [5], ∀ g : List Conn, w ∉ ((c6m.broadcast 1 [5]).state.broadcast 1 g).sends)) :=
  ⟨by decide, C6_broadcast_failure_isolation c6m 1 [5] (by decide)⟩

/-! C4: member count versus join/leave counting. -/

/-- Contribution of one call to the join count of conversation `cid`. -/
def joinStep (cid : Nat) : Op → Nat
  | .join c _ _ _ => if c == cid then 1 else 0
  | _ => 0

/-- Number of join calls for conversation `cid` in a trace. -/
def joinCount : List Op → Nat → Nat
  | [], _ => 0
  | o :: rest, cid => joinStep cid o + joinCount rest cid

/-- Whether a leave of `ws` at the current state would remove at least
one record (i.e. the leave is "effective": not a duplicate leave and not
a leave of an absent member). -/
def effectiveLeaveB (m : WSManager) (cid : Nat) (ws : Conn) : Bool :=
  (members m cid).any (fun c => c.ws == ws)

/-- Effective leaves among a broadcast's dead-connection evictions,
counting each eviction that removes at least one record as one. -/
def effLeaveFold (c cid : Nat) (m : WSManager) : List Conn → Nat
  | [] => 0
  | w :: rest =>
    (if c == cid && effectiveLeaveB m c w then 1 else 0) +
      effLeaveFold c cid (m.leave c w) rest

/-- Effective leaves contributed by one call, per the specification's
counting: duplicate leaves and leaves of absent members count zero. -/
def effLeaveStep (m : WSManager) (cid : Nat) : Op → Nat
  | .leave c w => if c == cid && effectiveLeaveB m c w then 1 else 0
  | .broadcast c failing => effLeaveFold c cid m (deadList m c failing)
  | _ => 0

/-- Effective-leave count of a trace for conversation `cid`, starting
from a given state. -/
def effLeaveCountFrom (m : WSManager) (cid : Nat) : List Op → Nat
  | [] => 0
  | o :: rest => effLeaveStep m cid o + effLeaveCountFrom (applyOp m o) cid rest

/-- Effective-leave count of a trace from the empty registry. -/
def effLeaveCount (ops : List Op) (cid : Nat) : Nat := effLeaveCountFrom .empty cid ops

/-- Trace on which C4's formula fails: two joins of one connection, then
a single effective leave, which removes both records at once. -/
def c4ops : List Op := [.join 1 5 7 "", .join 1 5 7 "", .leave 1 5]

/-- Counterexample to C4 as stated: after `c4ops` the room is empty
(member count 0), but joins minus effective leaves is 2 - 1 = 1. -/
theorem C4_counterexample_double_join :
    ¬ (memberCount (runOps c4ops) 1 = joinCount c4ops 1 - effLeaveCount c4ops 1) := by
  decide

/-- Number of records a leave of `ws` removes from room `cid`. -/
def leaveRemoved (m : WSManager) (cid : Nat) (ws : Conn) : Nat :=
  (members m cid).countP (fun c => c.ws == ws)

/-- Records removed from room `cid` by a broadcast's evictions. -/
def removedFold (c cid : Nat) (m : WSManager) : List Conn → Nat
  | [] => 0
  | w :: rest =>
    (if c == cid then leaveRemoved m cid w else 0) +
      removedFold c cid (m.leave c w) rest

/-- Records removed from room `cid` by one call. -/
def removedStep (m : WSManager) (cid : Nat) : Op → Nat
  | .leave c w => if c == cid then leaveRemoved m cid w else 0
  | .broadcast c failing => removedFold c cid m (deadList m c failing)
  | _ => 0

/-- Total records removed from room `cid` over a trace, starting from a
given state. -/
def removedCountFrom (m : WSManager) (cid : Nat) : List Op → Nat
  | [] => 0
  | o :: rest => removedStep m cid o + removedCountFrom (applyOp m o) cid rest

/-- Total records removed from room `cid` over a trace from the empty
registry. -/
def removedCount (ops : List Op) (cid : Nat) : Nat := removedCountFrom .empty cid ops

theorem length_filter_ne_add_countP (l : List ConnRecord) (ws : Conn) :
    (l.filter (fun c => c.ws != ws)).length + l.countP (fun c => c.ws == ws) = l.length := by
  induction l with
  | nil => rfl
  | cons c rest ih =>
    by_cases hc : c.ws = ws
    · simp only [List.filter_cons, List.countP_cons, hc]
      simp
      omega
    · simp only [List.filter_cons, List.countP_cons]
      rw [if_pos (by simp [hc]), if_neg (by simp [hc])]
      simp only [List.length_cons]
      omega

theorem memberCount_leave (m : WSManager) (c cid : Nat) (w : Conn) :
    memberCount (m.leave c w) cid + (if c == cid then leaveRemoved m cid w else 0)
      = memberCount m cid := by
  by_cases h : c = cid
  · subst h
    rw [if_pos (by simp)]
    unfold memberCount leaveRemoved
    rw [members_leave_self]
    exact length_filter_ne_add_countP _ _
  · rw [if_neg (by simp [h])]
    unfold memberCount
    rw [members_leave_ne m w (fun hh => h hh.symm)]
    omega

theorem memberCount_join (m : WSManager) (c cid : Nat) (ws : Conn) (uid : Nat)
    (ua : String) :
    memberCount (m.join c ws uid ua) cid
      = memberCount m cid + (if c == cid then 1 else 0) := by
  by_cases h : c = cid
  · subst h
    rw [if_pos (by simp)]
    unfold memberCount
    rw [members_join_self]
    simp
  · rw [if_neg (by simp [h])]
    unfold memberCount
    rw [members_join_ne m ws uid ua (fun hh => h hh.symm)]
    omega

theorem memberCount_leaveFold (L : List Conn) (m : WSManager) (c cid : Nat) :
    memberCount (L.foldl (fun s w => s.leave c w) m) cid + removedFold c cid m L
      = memberCount m cid := by
  induction L generalizing m with
  | nil => simp [removedFold]
  | cons w rest ih =>
    simp only [List.foldl_cons, removedFold]
    have h1 := memberCount_leave m c cid w
    have h2 := ih (m.leave c w)
    omega

theorem memberCount_applyOp (m : WSManager) (o : Op) (cid : Nat) :
    memberCount (applyOp m o) cid + removedStep m cid o
      = memberCount m cid + joinStep cid o := by
  cases o with
  | join c ws uid ua =>
    simp only [applyOp, removedStep, joinStep]
    rw [memberCount_join]
    omega
  | leave c w =>
    simp only [applyOp, removedStep, joinStep]
    have := memberCount_leave m c cid w
    omega
  | broadcast c failing =>
    simp only [applyOp, removedStep, joinStep, broadcast_state_eq]
    have := memberCount_leaveFold (deadList m c failing) m c cid
    omega

theorem memberCount_runOpsFrom (ops : List Op) (m : WSManager) (cid : Nat) :
    memberCount (runOpsFrom m ops) cid + removedCountFrom m cid ops
      = memberCount m cid + joinCount ops cid := by
  induction ops generalizing m with
  | nil => simp [runOpsFrom, removedCountFrom, joinCount]
  | cons o rest ih =>
    simp only [runOpsFrom, List.foldl_cons, removedCountFrom, joinCount]
    have h1 := memberCount_applyOp m o cid
    have h2 := ih (applyOp m o)
    simp only [runOpsFrom] at h2
    omega

/-- C4 amended: for every sequence of interleaved join/leave/broadcast
calls on one conversation, the room's member count after the sequence
equals the number of joins minus the total number of records removed by
leaves, where one leave removes every record of its connection (possibly
several after duplicate joins), broadcast evictions remove through the
same leave path, and duplicate leaves or leaves of absent members remove
nothing. -/
theorem C4_amended_member_count (ops : List Op) (cid : Nat) :
    memberCount (runOps ops) cid + removedCount ops cid = joinCount ops cid := by
  have h := memberCount_runOpsFrom ops .empty cid
  have hz : memberCount WSManager.empty cid = 0 := rfl
  rw [runOps, removedCount]
  omega

/-! Session handler model: the websocket endpoint `ws_chat` of main.py. -/

/-- Characters Python's `str.strip()` removes (ASCII whitespace, as in
`str.isspace`). -/
def pyWS (c : Char) : Bool :=
  c == ' ' || c == '\t' || c == '\n' || c == '\r' || c == '\x0b' || c == '\x0c'

/-- Python `str.strip()`: drop leading and trailing whitespace. -/
def pyStrip (s : String) : String :=
  ⟨((s.data.dropWhile pyWS).reverse.dropWhile pyWS).reverse⟩

/-- Truthiness of the Python uid variable (`if not uid`): `None` and `0`
are falsy. -/
def truthy : Option Nat → Bool
  | none => false
  | some n => n != 0

/-- Close code used by `ws.close()` when no code argument is given: the
framework default 1000, the WebSocket normal-closure code. -/
def wsCloseDefault : Nat := 1000

/-- The WebSocket normal-closure code used by a graceful close. -/
def normalCloseCode : Nat := 1000

/-- An outbound broadcast payload as built by ws_chat (fields a given
payload kind does not carry are empty). -/
structure Payload where
  ptype : String
  event : String
  uid : Nat
  content : String
  device : String
deriving DecidableEq

/-- Observable events of one websocket session, in order: a completed
`save_message` call, a frame handed to one member's send path, a
Registry join or leave call, and a `ws.close` call with its code. -/
inductive SessEvent where
  | saveCall (cid uid : Nat) (content : String)
  | sendEvent (ws : Conn) (p : Payload)
  | joinCall (cid : Nat) (ws : Conn) (uid : Nat)
  | leaveCall (cid : Nat) (ws : Conn)
  | closeCall (code : Nat)
deriving DecidableEq

/-- The value found under "content" in a parsed frame object: a string,
some other truthy value (on which `.strip()` raises `AttributeError`),
or a falsy non-string (`None`, `0`, `[]`, ... — `x or ""` yields `""`). -/
inductive ContentVal where
  | str (s : String)
  | truthyNonStr
  | falsyNonStr
deriving DecidableEq

/-- An inbound frame of the message loop: `malformed` makes `json.loads`
raise; `nonObject` parses to a non-dict (so `frame.get` raises); `obj`
is a dict with an optional "content" entry. -/
inductive Frame where
  | malformed
  | nonObject
  | obj (content : Option ContentVal)
deriving DecidableEq

/-- How one iteration of the message loop ends: proceed to the next
frame, or an exception escapes the loop. -/
inductive StepExit where
  | next
  | raised
deriving DecidableEq

/-- One iteration of the ws_chat message loop on one inbound frame.
`saveRaises` says whether the `save_message` call of this iteration
raises; `failing` says which member sends fail during the broadcast.
Returns the loop exit, the events of the iteration in order, and the
registry state after it. -/
def loopStep (m : WSManager) (cid uid : Nat) (ua : String) (f : Frame)
    (saveRaises : Bool) (failing : List Conn) :
    StepExit × List SessEvent × WSManager :=
  match f with
  | .malformed => (.next, [], m)
  | .nonObject => (.raised, [], m)
  | .obj none => (.next, [], m)
  | .obj (some .falsyNonStr) => (.next, [], m)
  | .obj (some .truthyNonStr) => (.raised, [], m)
  | .obj (some (.str s)) =>
    let content := pyStrip s
    if content = "" then (.next, [], m)
    else if saveRaises then (.raised, [], m)
    else
      let res := m.broadcast cid failing
      (.next,
        SessEvent.saveCall cid uid content ::
          res.sends.map (fun w =>
            SessEvent.sendEvent w ⟨"message", "", uid, content, detect_device ua⟩),
        res.state)

/-- The ws_chat message loop: process the inbound frames in order until
they end (client disconnect) or an iteration raises. Returns the
events, the registry state after the loop, and whether an exception
escaped the loop. -/
def runLoop (cid uid : Nat) (ua : String) :
    WSManager → List (Frame × Bool × List Conn) → List SessEvent × WSManager × Bool
  | m, [] => ([], m, false)
  | m, (f, sr, fl) :: rest =>
    let step := loopStep m cid uid ua f sr fl
    match step.1 with
    | .next =>
      let r2 := runLoop cid uid ua step.2.2 rest
      (step.2.1 ++ r2.1, r2.2.1, r2.2.2)
    | .raised => (step.2.1, step.2.2, true)

/-- The handshake frame — the first inbound message, `{"token": ...}`:
either unparseable or a dict with an optional token string. -/
inductive AuthFrame where
  | malformed
  | obj (token : Option String)
deriving DecidableEq

/-- Result of one whole ws_chat session: its ordered events and the
final registry state. -/
structure SessResult where
  events : List SessEvent
  state : WSManager
deriving DecidableEq

/-- The `finally` block of ws_chat: always call leave, then, when the
uid variable is truthy, best-effort broadcast a `system/leave` event. -/
def teardown (m : WSManager) (cid : Nat) (ws : Conn) (uid : Option Nat)
    (leaveFailing : List Conn) : List SessEvent × WSManager :=
  let m1 := m.leave cid ws
  if truthy uid then
    let res := m1.broadcast cid leaveFailing
    (SessEvent.leaveCall cid ws ::
        res.sends.map (fun w =>
          SessEvent.sendEvent w ⟨"system", "leave", uid.getD 0, "", ""⟩),
      res.state)
  else ([SessEvent.leaveCall cid ws], m1)

/-- Embedding of the websocket endpoint `ws_chat` (main.py): admission
(handshake parse, token resolution via `tokenUid` standing for
`get_uid_by_token`, membership check via `isMember` standing for
`is_member`), then the Registry join, the `system/join` broadcast, the
message loop, and the `finally` teardown. A rejection calls `ws.close()`
with no code argument and returns — and the `finally` teardown still
runs. -/
def wsChat (tokenUid : String → Option Nat) (isMember : Nat → Nat → Bool)
    (m : WSManager) (cid : Nat) (ws : Conn) (ua : String) (af : AuthFrame)
    (frames : List (Frame × Bool × List Conn))
    (joinFailing leaveFailing : List Conn) : SessResult :=
  match af with
  | .malformed =>
    let td := teardown m cid ws none leaveFailing
    ⟨SessEvent.closeCall wsCloseDefault :: td.1, td.2⟩
  | .obj tok =>
    let uid := tokenUid (tok.getD "")
    if truthy uid then
      if isMember (uid.getD 0) cid then
        let u := uid.getD 0
        let m1 := m.join cid ws u ua
        let res := m1.broadcast cid joinFailing
        let jevs := SessEvent.joinCall cid ws u ::
          res.sends.map (fun w =>
            SessEvent.sendEvent w ⟨"system", "join", u, "", detect_device ua⟩)
        let lp := runLoop cid u ua res.state frames
        let td := teardown lp.2.1 cid ws uid leaveFailing
        ⟨jevs ++ lp.1 ++ td.1, td.2⟩
      else
        let td := teardown m cid ws uid leaveFailing
        ⟨SessEvent.closeCall wsCloseDefault :: td.1, td.2⟩
    else
      let td := teardown m cid ws uid leaveFailing
      ⟨SessEvent.closeCall wsCloseDefault :: td.1, td.2⟩

/-- Whether ws_chat rejects the session at admission: unparseable
handshake frame, falsy token uid, or failed membership check. -/
def rejectedAdmission (tokenUid : String → Option Nat) (isMember : Nat → Nat → Bool)
    (cid : Nat) : AuthFrame → Prop
  | .malformed => True
  | .obj tok =>
    truthy (tokenUid (tok.getD "")) = false ∨
      (truthy (tokenUid (tok.getD "")) = true ∧
        isMember ((tokenUid (tok.getD "")).getD 0) cid = false)

example : pyStrip "  hi  " = "hi" := by decide

example : pyStrip " \t \n" = "" := by decide

example :
    (wsChat (fun t => if t == "T" then some 5 else none) (fun _ _ => true) .empty 1 9 ""
      (.obj (some "T")) [(.obj (some (.str "hi")), false, [])] [] []).events =
    [.joinCall 1 9 5, .sendEvent 9 ⟨"system", "join", 5, "", "desktop"⟩,
      .saveCall 1 5 "hi", .sendEvent 9 ⟨"message", "", 5, "hi", "desktop"⟩,
      .leaveCall 1 9] := by decide

/-- Ordering property of an event list: every frame handed to a member's
send path is preceded by an earlier completed save. -/
def persistBeforeBroadcast (evs : List SessEvent) : Prop :=
  ∀ j w p, evs.get? j = some (.sendEvent w p) →
    ∃ i c u s, i < j ∧ evs.get? i = some (.saveCall c u s)

/-- C3: for an accepted non-empty content frame whose save succeeds, the
completed `save_message` call is the first event of the iteration, so it
precedes every hand-off of the message to a member's send path. -/
theorem C3_persist_before_broadcast (m : WSManager) (cid uid : Nat) (ua : String)
    (s : String) (failing : List Conn) (h : pyStrip s ≠ "") :
    (loopStep m cid uid ua (.obj (some (.str s))) false failing).2.1.get? 0 =
        some (.saveCall cid uid (pyStrip s)) ∧
      persistBeforeBroadcast
        (loopStep m cid uid ua (.obj (some (.str s))) false failing).2.1 := by
  have hevs : (loopStep m cid uid ua (.obj (some (.str s))) false failing).2.1
      = SessEvent.saveCall cid uid (pyStrip s) ::
        (m.broadcast cid failing).sends.map (fun w =>
          SessEvent.sendEvent w ⟨"message", "", uid, pyStrip s, detect_device ua⟩) := by
    simp [loopStep, h]
  rw [hevs]
  refine ⟨rfl, ?_⟩
  intro j w p hj
  cases j with
  | zero => simp at hj
  | succ k => exact ⟨0, cid, uid, pyStrip s, Nat.succ_pos k, rfl⟩

/-- Witness for C3 at a concrete frame. -/
theorem C3_persist_before_broadcast_witness :
    pyStrip "hi" ≠ "" ∧
      ((loopStep .empty 1 2 "" (.obj (some (.str "hi"))) false []).2.1.get? 0 =
          some (.saveCall 1 2 (pyStrip "hi")) ∧
        persistBeforeBroadcast
          (loopStep .empty 1 2 "" (.obj (some (.str "hi"))) false []).2.1) :=
  ⟨by decide, C3_persist_before_broadcast .empty 1 2 "" "hi" [] (by decide)⟩

/-- C7: a frame that fails to parse as JSON is dropped — no events, no
state change, and the loop continues to the next frame; a frame whose
content is empty or whitespace-only is likewise dropped silently with
zero store calls and zero broadcasts. -/
theorem C7_bad_and_empty_frames_dropped (m : WSManager) (cid uid : Nat) (ua : String)
    (saveRaises : Bool) (failing : List Conn) :
    loopStep m cid uid ua .malformed saveRaises failing = (.next, [], m) ∧
      ∀ s, pyStrip s = "" →
        loopStep m cid uid ua (.obj (some (.str s))) saveRaises failing =
          (.next, [], m) := by
  refine ⟨rfl, ?_⟩
  intro s hs
  simp [loopStep, hs]

/-- Witness for C7 at a concrete malformed frame and a whitespace-only
content frame. -/
theorem C7_bad_and_empty_frames_dropped_witness :
    loopStep .empty 1 2 "" .malformed false [] = (.next, [], .empty) ∧
      pyStrip " \t " = "" ∧
      loopStep .empty 1 2 "" (.obj (some (.str " \t "))) false [] = (.next, [], .empty) :=
  ⟨(C7_bad_and_empty_frames_dropped .empty 1 2 "" false []).1, by decide,
    (C7_bad_and_empty_frames_dropped .empty 1 2 "" false []).2 " \t " (by decide)⟩

/-! Helper lemmas about teardown and failure-free broadcasts. -/

theorem broadcast_sends_members (m : WSManager) (cid : Nat) (failing : List Conn) :
    (m.broadcast cid failing).sends = (members m cid).map (fun c => c.ws) := by
  cases hl : lookupRoom m.rooms cid with
  | none =>
    rw [broadcast_sends_none _ _ _ hl]
    simp [members, hl]
  | some r =>
    rw [broadcast_sends_eq _ _ _ hl]
    simp [members, hl]

theorem broadcast_nofail_state (m : WSManager) (cid : Nat) :
    (m.broadcast cid []).state = m := by
  rw [broadcast_state_eq]
  have hd : deadList m cid [] = [] := by
    simp [deadList]
  rw [hd]
  rfl

theorem members_leave_not_present (m : WSManager) {cid : Nat} {ws : Conn}
    (hws : ws ∉ (members m cid).map (fun c => c.ws)) (cid2 : Nat) :
    members (m.leave cid ws) cid2 = members m cid2 := by
  by_cases h : cid2 = cid
  · subst h
    rw [members_leave_self]
    apply List.filter_eq_self.mpr
    intro c hc
    have hne : c.ws ≠ ws := fun he => hws (List.mem_map.mpr ⟨c, hc, he⟩)
    simpa using hne
  · exact members_leave_ne m ws h

theorem teardown_falsy (m : WSManager) (cid : Nat) (ws : Conn) (uid : Option Nat)
    (lf : List Conn) (h : truthy uid = false) :
    teardown m cid ws uid lf = ([SessEvent.leaveCall cid ws], m.leave cid ws) := by
  simp [teardown, h]

theorem teardown_truthy_nofail (m : WSManager) (cid : Nat) (ws : Conn) (uid : Option Nat)
    (h : truthy uid = true) :
    teardown m cid ws uid [] =
      (SessEvent.leaveCall cid ws ::
          (members (m.leave cid ws) cid).map (fun c =>
            SessEvent.sendEvent c.ws ⟨"system", "leave", uid.getD 0, "", ""⟩),
        m.leave cid ws) := by
  simp [teardown, h, broadcast_nofail_state, broadcast_sends_members, List.map_map,
    Function.comp]

/-! C1: behaviour when save_message raises. -/

/-- Token table for the concrete C1 session: token "T" belongs to user
5. -/
def c1TokenUid : String → Option Nat := fun t => if t == "T" then some 5 else none

/-- Concrete C1 session: valid token and membership; the first content
frame's save raises; a second valid content frame follows. -/
def c1sess : SessResult :=
  wsChat c1TokenUid (fun _ _ => true) .empty 1 9 "" (.obj (some "T"))
    [(.obj (some (.str "hi")), true, []), (.obj (some (.str "bye")), false, [])] [] []

/-- Counterexample to C1 as stated: when save_message raises, the frame
indeed produces no message broadcast, but the failure is fatal — the
next frame is never processed (no save of "bye" occurs) and the
teardown (Registry leave) runs. -/
theorem C1_counterexample_store_failure_fatal :
    SessEvent.saveCall 1 5 "bye" ∉ c1sess.events ∧
      (c1sess.events.all (fun e => match e with
        | .sendEvent _ p => p.ptype != "message"
        | _ => true)) = true ∧
      SessEvent.leaveCall 1 9 ∈ c1sess.events := by decide

theorem runLoop_saveRaises_head (cid uid : Nat) (ua : String) (m : WSManager)
    (s : String) (fl : List Conn) (rest : List (Frame × Bool × List Conn))
    (hs : pyStrip s ≠ "") :
    runLoop cid uid ua m ((Frame.obj (some (.str s)), true, fl) :: rest) =
      ([], m, true) := by
  simp [runLoop, loopStep, hs]

/-- C1 amended: if save_message raises on a valid non-empty content
frame, that frame produces no broadcast to any member (no message event
is ever handed to a send path), but the exception escapes the message
loop: the session processes no further frames — it behaves exactly as if
the failing frame were the last — and teardown (Registry leave and the
best-effort leave broadcast) runs. -/
theorem C1_amended_store_failure_fatal (tokenUid : String → Option Nat)
    (isMember : Nat → Nat → Bool) (m : WSManager) (cid : Nat) (ws : Conn) (ua : String)
    (tok : Option String) (s : String) (fl : List Conn)
    (rest : List (Frame × Bool × List Conn)) (jf lf : List Conn)
    (htok : truthy (tokenUid (tok.getD "")) = true)
    (hmem : isMember ((tokenUid (tok.getD "")).getD 0) cid = true)
    (hs : pyStrip s ≠ "") :
    wsChat tokenUid isMember m cid ws ua (.obj tok)
        ((Frame.obj (some (.str s)), true, fl) :: rest) jf lf
      = wsChat tokenUid isMember m cid ws ua (.obj tok)
          [(Frame.obj (some (.str s)), true, fl)] jf lf ∧
      ((wsChat tokenUid isMember m cid ws ua (.obj tok)
          ((Frame.obj (some (.str s)), true, fl) :: rest) jf lf).events.all
        (fun e => match e with
          | .sendEvent _ p => p.ptype != "message"
          | _ => true)) = true ∧
      SessEvent.leaveCall cid ws ∈
        (wsChat tokenUid isMember m cid ws ua (.obj tok)
          ((Frame.obj (some (.str s)), true, fl) :: rest) jf lf).events := by
  have hL : ∀ (m2 : WSManager) (r2 : List (Frame × Bool × List Conn)),
      runLoop cid ((tokenUid (tok.getD "")).getD 0) ua m2
        ((Frame.obj (some (.str s)), true, fl) :: r2) = ([], m2, true) := fun m2 r2 =>
    runLoop_saveRaises_head _ _ _ _ _ _ _ hs
  refine ⟨?_, ?_, ?_⟩
  · simp [wsChat, htok, hmem, hL]
  · simp [wsChat, htok, hmem, hL, teardown, List.all_append, List.all_map, Function.comp]
  · simp [wsChat, htok, hmem, hL, teardown]

/-- Witness for the amended C1 at a concrete session with a trailing
unprocessed frame. -/
theorem C1_amended_store_failure_fatal_witness :
    truthy (c1TokenUid ((some "T").getD "")) = true ∧
      (fun (_ _ : Nat) => true) ((c1TokenUid ((some "T").getD "")).getD 0) 1 = true ∧
      pyStrip "hi" ≠ "" ∧
      SessEvent.leaveCall 1 9 ∈
        (wsChat c1TokenUid (fun _ _ => true) .empty 1 9 "" (.obj (some "T"))
          ((Frame.obj (some (.str "hi")), true, []) :: [(Frame.malformed, false, [])])
          [] []).events :=
  ⟨by decide, by decide, by decide,
    (C1_amended_store_failure_fatal c1TokenUid (fun _ _ => true) .empty 1 9 "" (some "T")
      "hi" [] [(Frame.malformed, false, [])] [] [] (by decide) (by decide)
      (by decide)).2.2⟩

/-! C2: rejected admissions and the Registry. -/

/-- Token table for the concrete C2 session: token "T" belongs to user
5. -/
def c2TokenUid : String → Option Nat := fun t => if t == "T" then some 5 else none

/-- Registry with an existing member (connection 6 of user 9) in room 1,
for the C2 scenario. -/
def c2m : WSManager := runOps [.join 1 6 9 ""]

/-- Concrete C2 session: connection 8 presents a valid token for user 5,
who is not a member of conversation 1, so admission rejects it. -/
def c2sess : SessResult :=
  wsChat c2TokenUid (fun _ _ => false) c2m 1 8 "" (.obj (some "T")) [] [] []

/-- Counterexample to C2 as stated: the rejected connection's teardown
still calls leave on the Registry, and the room's existing member
(connection 6) receives a system/leave broadcast for a user who never
joined. -/
theorem C2_counterexample_rejection_reaches_registry :
    SessEvent.leaveCall 1 8 ∈ c2sess.events ∧
      SessEvent.sendEvent 6 ⟨"system", "leave", 5, "", ""⟩ ∈ c2sess.events := by decide

/-- C2 amended: for a connection rejected at admission, join is never
called and the registry's membership is unchanged (the teardown leave is
a no-op because the connection never joined); however the teardown does
invoke leave on the Registry, and — as the counterexample shows — when
the token was valid but the membership check failed, a system/leave
broadcast is sent to the room's existing members. -/
theorem C2_amended_rejection (tokenUid : String → Option Nat)
    (isMember : Nat → Nat → Bool) (m : WSManager) (cid : Nat) (ws : Conn) (ua : String)
    (af : AuthFrame) (frames : List (Frame × Bool × List Conn)) (jf : List Conn)
    (hws : ws ∉ (members m cid).map (fun c => c.ws))
    (hrej : rejectedAdmission tokenUid isMember cid af) :
    (∀ c u, SessEvent.joinCall c ws u ∉
        (wsChat tokenUid isMember m cid ws ua af frames jf []).events) ∧
      SessEvent.leaveCall cid ws ∈
        (wsChat tokenUid isMember m cid ws ua af frames jf []).events ∧
      ∀ cid2, members (wsChat tokenUid isMember m cid ws ua af frames jf []).state cid2
        = members m cid2 := by
  cases af with
  | malformed =>
    have ht : teardown m cid ws none [] = ([SessEvent.leaveCall cid ws], m.leave cid ws) :=
      teardown_falsy m cid ws none [] rfl
    refine ⟨?_, ?_, ?_⟩
    · intro c u
      simp [wsChat, ht]
    · simp [wsChat, ht]
    · intro cid2
      simp only [wsChat, ht]
      exact members_leave_not_present m hws cid2
  | obj tok =>
    simp only [rejectedAdmission] at hrej
    rcases hrej with hf | ⟨ht1, ht2⟩
    · have ht := teardown_falsy m cid ws (tokenUid (tok.getD "")) [] hf
      refine ⟨?_, ?_, ?_⟩
      · intro c u
        simp [wsChat, hf, ht]
      · simp [wsChat, hf, ht]
      · intro cid2
        simp only [wsChat, hf, ht, Bool.false_eq_true, if_false]
        exact members_leave_not_present m hws cid2
    · have ht := teardown_truthy_nofail m cid ws (tokenUid (tok.getD "")) ht1
      refine ⟨?_, ?_, ?_⟩
      · intro c u
        simp [wsChat, ht1, ht2, ht]
      · simp [wsChat, ht1, ht2, ht]
      · intro cid2
        simp only [wsChat, ht1, ht2, ht, Bool.false_eq_true, if_false, if_true]
        exact members_leave_not_present m hws cid2

/-- Witness for the amended C2 at the concrete rejected session. -/
theorem C2_amended_rejection_witness :
    (8 : Conn) ∉ (members c2m 1).map (fun c => c.ws) ∧
      rejectedAdmission c2TokenUid (fun _ _ => false) 1 (.obj (some "T")) ∧
      SessEvent.leaveCall 1 8 ∈
        (wsChat c2TokenUid (fun _ _ => false) c2m 1 8 "" (.obj (some "T")) [] [] []).events :=
  ⟨by decide, Or.inr ⟨by decide, rfl⟩,
    (C2_amended_rejection c2TokenUid (fun _ _ => false) c2m 1 8 "" (.obj (some "T")) [] []
      (by decide) (Or.inr ⟨by decide, rfl⟩)).2.1⟩

/-! C8: close signal on rejected admission. -/

/-- Concrete C8 session: an unknown token, rejected at authentication. -/
def c8sess : SessResult :=
  wsChat (fun _ => none) (fun _ _ => true) .empty 1 8 "" (.obj (some "BAD")) [] [] []

/-- Counterexample to C8 as stated: the close on an authentication
failure carries the default code 1000 — exactly the normal-closure
code — so it is not distinguishable from a graceful close. -/
theorem C8_counterexample_close_not_distinguishable :
    SessEvent.closeCall normalCloseCode ∈ c8sess.events ∧
      (c8sess.events.all (fun e => match e with
        | .closeCall code => code == normalCloseCode
        | _ => true)) = true := by decide

/-- C8 amended: when authentication or membership fails at handshake
time, ws_chat closes the connection with the default `ws.close()` —
close code 1000, the WebSocket normal-closure code — which is the same
signal as a normal close, not a distinguishable policy-violation one. -/
theorem C8_amended_reject_close_default (tokenUid : String → Option Nat)
    (isMember : Nat → Nat → Bool) (m : WSManager) (cid : Nat) (ws : Conn) (ua : String)
    (af : AuthFrame) (frames : List (Frame × Bool × List Conn)) (jf lf : List Conn)
    (hrej : rejectedAdmission tokenUid isMember cid af) :
    (wsChat tokenUid isMember m cid ws ua af frames jf lf).events.head? =
        some (.closeCall wsCloseDefault) ∧ wsCloseDefault = normalCloseCode := by
  refine ⟨?_, rfl⟩
  cases af with
  | malformed => simp [wsChat]
  | obj tok =>
    simp only [rejectedAdmission] at hrej
    rcases hrej with hf | ⟨ht1, ht2⟩
    · simp [wsChat, hf]
    · simp [wsChat, ht1, ht2]

/-- Witness for the amended C8 at the concrete rejected session. -/
theorem C8_amended_reject_close_default_witness :
    rejectedAdmission (fun _ => none) (fun _ _ => true) 1 (.obj (some "BAD")) ∧
      (wsChat (fun _ => none) (fun _ _ => true) .empty 1 8 "" (.obj (some "BAD"))
        [] [] []).events.head? = some (.closeCall wsCloseDefault) :=
  ⟨Or.inl rfl,
    (C8_amended_reject_close_default (fun _ => none) (fun _ _ => true) .empty 1 8 ""
      (.obj (some "BAD")) [] [] [] (Or.inl rfl)).1⟩

end Dreams
